import Mathlib

/-!
Shallow embedding of `src/process_mining.py` (process-mining pipeline:
event-log preparation, KPI aggregation, DFG discovery, edge-table assembly).

Modelling conventions:
* A pandas DataFrame row of the prepared event log is an `Event`
  (`case:concept:name`, `concept:name`, `time:timestamp`); timestamps are
  `Int` seconds since the epoch (pandas datetime64 values are totally
  ordered; only their order and differences matter here).
* `pd.to_datetime(..., errors="coerce")` is an external parser, modelled as
  a parameter `parse : String → Option Int` (`none` = NaT).
* Python floats appearing in the KPI record are modelled as `PVal`:
  a rational number, the float `nan` (what pandas aggregations return on an
  empty series), or Python `None`.
* `pm4py.format_dataframe` only normalizes column names/dtypes that already
  hold by construction here, so it is the identity in this model.
-/

/-- A raw CSV row: the three required columns plus any extra columns
(`df_raw.loc[:, ["case_id", "activity_name", "timestamp"]]` drops the rest). -/
structure RawRow where
  case_id : String
  activity_name : String
  timestamp : String
  extra : List (String × String)
deriving DecidableEq, Repr

/-- One event of the prepared log: columns `case:concept:name`,
`concept:name`, `time:timestamp` (timestamp in seconds). -/
structure Event where
  case_id : String
  activity : String
  timestamp : Int
deriving DecidableEq, Repr

/-- A Python value in the exported KPI record: a finite float (exact
rational in this model), the float `nan`, or `None`. -/
inductive PVal where
  | num (q : ℚ)
  | nan
  | null
deriving DecidableEq, Repr

/-- The projection `df_raw.loc[:, ["case_id", "activity_name", "timestamp"]]`. -/
def projectRow (r : RawRow) : String × String × String :=
  (r.case_id, r.activity_name, r.timestamp)

/-- Parse one projected row into an `Event` (`none` iff the timestamp is NaT). -/
def parseRow (parse : String → Option Int) (t : String × String × String) : Option Event :=
  (parse t.2.2).map (fun ts => ⟨t.1, t.2.1, ts⟩)

/-- Strict lexicographic order on character lists (how pandas compares the
string keys of a sort). -/
def charListLt : List Char → List Char → Bool
  | [], [] => false
  | [], _ :: _ => true
  | _ :: _, [] => false
  | a :: as, b :: bs => decide (a < b) || (decide (a = b) && charListLt as bs)

/-- Strict lexicographic order on strings. -/
def strLt (a b : String) : Bool :=
  charListLt a.data b.data

/-- Non-strict lexicographic order on strings. -/
def strLe (a b : String) : Bool :=
  strLt a b || a == b

/-- Sort key of `df.sort_values(["case:concept:name", "time:timestamp"])`:
lexicographic on (case_id, timestamp), ignoring the activity column. -/
def keyLe (a b : Event) : Bool :=
  strLt a.case_id b.case_id ||
    (a.case_id == b.case_id && decide (a.timestamp ≤ b.timestamp))

/-- The projected-and-parsed rows, in original input order (before sorting). -/
def parsedEvents (parse : String → Option Int) (rows : List RawRow) : List Event :=
  (rows.map projectRow).filterMap (parseRow parse)

/-- `prepare_event_log`: project to the three columns, parse timestamps with
`errors="coerce"`, abort with the count of NaT rows if any
(`raise ValueError(f"{bad} rows have invalid timestamps...")`, modelled as
`Except.error bad`), else rename columns and sort by
`(case:concept:name, time:timestamp)` with `kind="mergesort"` (stable). -/
def prepare_event_log (parse : String → Option Int) (rows : List RawRow) :
    Except Nat (List Event) :=
  let bad := ((rows.map projectRow).filter (fun t => (parse t.2.2).isNone)).length
  if bad = 0 then
    Except.ok ((parsedEvents parse rows).mergeSort keyLe)
  else
    Except.error bad

/-- Unique values of a list in first-occurrence order (the distinct keys pandas
reports for a column). -/
def uniqueKeys {α : Type} [DecidableEq α] : List α → List α
  | [] => []
  | a :: l => a :: (uniqueKeys l).filter (fun b => b != a)

/-- Occurrence counts per distinct value (the multiset view behind
`value_counts` and the DFG frequency mapping). -/
def countTable {α : Type} [DecidableEq α] (l : List α) : List (α × Nat) :=
  (uniqueKeys l).map (fun a => (a, l.count a))

/-- `df["concept:name"].value_counts().to_dict()`: distinct activities with
their counts, sorted by count descending (stable: equal counts keep
first-occurrence order). -/
def value_counts (df : List Event) : List (String × Nat) :=
  (countTable (df.map (·.activity))).mergeSort (fun x y => Nat.ble y.2 x.2)

/-- The rows of `df.groupby("case:concept:name")` for one case id. -/
def caseGroup (df : List Event) (c : String) : List Event :=
  df.filter (fun e => e.case_id == c)

/-- The distinct case ids of the log (the log is case-sorted when it comes out
of `prepare_event_log`, so first-occurrence order is ascending order, matching
the sorted group keys `groupby` produces). -/
def caseIdsOf (df : List Event) : List String :=
  uniqueKeys (df.map (·.case_id))

/-- Minimum of a timestamp column (`Series.min`); default 0 is never reached on
the nonempty groups it is applied to. -/
def tsMin : List Int → Int
  | [] => 0
  | x :: xs => xs.foldl min x

/-- Maximum of a timestamp column (`Series.max`). -/
def tsMax : List Int → Int
  | [] => 0
  | x :: xs => xs.foldl max x

/-- Per-case throughput in hours:
`(case_span["end"] - case_span["start"]).dt.total_seconds() / 3600.0`. -/
def caseThroughput (df : List Event) (c : String) : ℚ :=
  (((tsMax ((caseGroup df c).map (·.timestamp)) -
      tsMin ((caseGroup df c).map (·.timestamp)) : Int) : ℚ)) / 3600

/-- The `throughput_hours` column of `case_span`, one value per case id. -/
def throughputHours (df : List Event) : List ℚ :=
  (caseIdsOf df).map (caseThroughput df)

/-- Sort a float series ascending (the sort underlying median/quantile). -/
def ratSort (xs : List ℚ) : List ℚ :=
  xs.mergeSort (fun a b => decide (a ≤ b))

/-- `Series.mean()`: arithmetic mean; `nan` on an empty series. -/
def seriesMean (xs : List ℚ) : PVal :=
  if xs.isEmpty then PVal.nan else PVal.num (xs.sum / (xs.length : ℚ))

/-- `Series.min()`: `nan` on an empty series. -/
def seriesMin : List ℚ → PVal
  | [] => PVal.nan
  | x :: xs => PVal.num (xs.foldl min x)

/-- `Series.max()`: `nan` on an empty series. -/
def seriesMax : List ℚ → PVal
  | [] => PVal.nan
  | x :: xs => PVal.num (xs.foldl max x)

/-- `Series.median()` (numpy nanmedian): sort, take the middle element, or the
mean of the two middle elements when the length is even; `nan` on empty. -/
def seriesMedian (xs : List ℚ) : PVal :=
  match ratSort xs with
  | [] => PVal.nan
  | a :: t =>
    let s := a :: t
    if s.length % 2 = 1 then PVal.num (s.getD (s.length / 2) 0)
    else PVal.num ((s.getD (s.length / 2 - 1) 0 + s.getD (s.length / 2) 0) / 2)

/-- `Series.quantile(p)` with the default `interpolation="linear"` (numpy):
virtual position `pos = p * (n - 1)`, `i = ⌊pos⌋`, fraction `g = pos - i`,
result `s[i] + g * (s[i+1] - s[i])` (the `i+1` access is clipped, which only
matters when `g = 0`); `nan` on an empty series. -/
def seriesQuantile (xs : List ℚ) (p : ℚ) : PVal :=
  match ratSort xs with
  | [] => PVal.nan
  | a :: t =>
    let s := a :: t
    let pos : ℚ := p * ((s.length : ℚ) - 1)
    let i : Nat := (⌊pos⌋).toNat
    let g : ℚ := pos - (i : ℚ)
    PVal.num (s.getD i 0 + g * (s.getD (i + 1) (s.getD i 0) - s.getD i 0))

/-- Follows the spec's words (§4.3), for comparison with `seriesQuantile` and
`seriesMedian`: the p-th percentile of a sorted list of N values sits at
position `p * (N - 1)`; interpolate linearly between the two bracketing order
statistics (the values at `⌊pos⌋` and `⌈pos⌉`). -/
def specPercentile (xs : List ℚ) (p : ℚ) : PVal :=
  match ratSort xs with
  | [] => PVal.nan
  | a :: t =>
    let s := a :: t
    let pos : ℚ := p * ((s.length : ℚ) - 1)
    let lo : ℚ := s.getD ((⌊pos⌋).toNat) 0
    let hi : ℚ := s.getD ((⌈pos⌉).toNat) 0
    PVal.num (lo + (pos - ((⌊pos⌋ : ℤ) : ℚ)) * (hi - lo))

/-- The KPI record `compute_kpis` returns (`kpis` dict in the source). -/
structure KPIs where
  cases : Nat
  events : Nat
  unique_activities : Nat
  avg_events_per_case : PVal
  first_event : Option Int
  last_event : Option Int
  thr_mean : PVal
  thr_median : PVal
  thr_min : PVal
  thr_max : PVal
  thr_p95 : PVal
  activity_frequency_top10 : List (String × Nat)
deriving DecidableEq, Repr

/-- `Series.min()` on the timestamp column: `none` = NaT on an empty log. -/
def tsMinOpt : List Int → Option Int
  | [] => none
  | x :: xs => some (xs.foldl min x)

/-- `Series.max()` on the timestamp column: `none` = NaT on an empty log. -/
def tsMaxOpt : List Int → Option Int
  | [] => none
  | x :: xs => some (xs.foldl max x)

/-- `compute_kpis` from the source, field by field. -/
def compute_kpis (df : List Event) : KPIs :=
  let ths := throughputHours df
  { cases := (caseIdsOf df).length
    events := df.length
    unique_activities := (uniqueKeys (df.map (·.activity))).length
    avg_events_per_case :=
      if (caseIdsOf df).length = 0 then PVal.null
      else PVal.num ((df.length : ℚ) / ((caseIdsOf df).length : ℚ))
    first_event := tsMinOpt (df.map (·.timestamp))
    last_event := tsMaxOpt (df.map (·.timestamp))
    thr_mean := seriesMean ths
    thr_median := seriesMedian ths
    thr_min := seriesMin ths
    thr_max := seriesMax ths
    thr_p95 := seriesQuantile ths (95 / 100)
    activity_frequency_top10 := (value_counts df).take 10 }

/-- Adjacent activity pairs of one case's activity sequence: the
directly-follows increments the case contributes. -/
def adjacentPairs : List String → List (String × String)
  | [] => []
  | [_] => []
  | a :: b :: t => (a, b) :: adjacentPairs (b :: t)

/-- The activity sequence of one case, in log order. -/
def caseSeq (df : List Event) (c : String) : List String :=
  (caseGroup df c).map (·.activity)

/-- All directly-follows increments of the log, case by case. -/
def dfgPairs (df : List Event) : List (String × String) :=
  ((caseIdsOf df).map (fun c => adjacentPairs (caseSeq df c))).flatten

/-- One start activity per case (first event of the case). -/
def startActs (df : List Event) : List String :=
  (caseIdsOf df).filterMap (fun c => (caseSeq df c).head?)

/-- One end activity per case (last event of the case). -/
def endActs (df : List Event) : List String :=
  (caseIdsOf df).filterMap (fun c => (caseSeq df c).getLast?)

/-- Modelled from the spec: `discover_dfg` delegates to
`pm4py.discover_dfg`, whose code is not part of this repository; spec §4.2
re-specifies it as explicit directly-follows counting — edge `(a_i, a_{i+1})`
incremented for every adjacent pair of each case's activity sequence, plus
per-case start/end activity counts. -/
def discover_dfg (df : List Event) :
    List ((String × String) × Nat) × List (String × Nat) × List (String × Nat) :=
  (countTable (dfgPairs df), countTable (startActs df), countTable (endActs df))

/-- One row of the assembled edge table. -/
structure Edge where
  source : String
  target : String
  frequency : Nat
deriving DecidableEq, Repr

/-- `dfg_to_edges_df`: build `{source, target, frequency}` rows from the DFG
mapping and `pd.DataFrame(rows).sort_values("frequency", ascending=False)`.
When `rows` is empty, `pd.DataFrame([])` has no columns at all, so
`sort_values("frequency")` raises `KeyError: 'frequency'` — modelled as
`Except.error`. The sort key is frequency alone; equal-frequency rows keep
the mapping's iteration order (modelled with a stable sort, which is what
numpy's sort does on the small arrays at hand; no source/target tie-break
exists in the code). -/
def dfg_to_edges_df (dfg : List ((String × String) × Nat)) : Except String (List Edge) :=
  let rows := dfg.map (fun p => Edge.mk p.1.1 p.1.2 p.2)
  if rows.isEmpty then Except.error "KeyError: frequency"
  else Except.ok (rows.mergeSort (fun a b => Nat.ble b.frequency a.frequency))

/-- The log invariant established by `prepare_event_log`: events are sorted by
`(case_id, timestamp)`. -/
abbrev ValidLog (df : List Event) : Prop :=
  df.Pairwise (fun a b => keyLe a b = true)

/-- The row ordering the spec claims for the assembled edge table: frequency
descending, ties broken by source activity name, then target activity name. -/
abbrev TieOrderedBySourceTarget (edges : List Edge) : Prop :=
  edges.Pairwise (fun a b =>
    b.frequency < a.frequency ∨
      (a.frequency = b.frequency ∧
        (strLt a.source b.source = true ∨
          (a.source = b.source ∧ strLe a.target b.target = true))))

/-! ## Basic facts about the helpers -/

theorem mem_uniqueKeys {α : Type} [DecidableEq α] (l : List α) (a : α) :
    a ∈ uniqueKeys l ↔ a ∈ l := by
  induction l with
  | nil => simp [uniqueKeys]
  | cons b t ih =>
    by_cases hab : a = b
    · subst hab; simp [uniqueKeys]
    · simp [uniqueKeys, List.mem_filter, ih, hab, bne_iff_ne]

theorem nodup_uniqueKeys {α : Type} [DecidableEq α] (l : List α) :
    (uniqueKeys l).Nodup := by
  induction l with
  | nil => simp [uniqueKeys]
  | cons b t ih =>
    simp only [uniqueKeys, List.nodup_cons]
    refine ⟨fun hmem => ?_, ih.filter _⟩
    have := (List.mem_filter.mp hmem).2
    simp at this

theorem sum_counts {α : Type} [DecidableEq α] (l : List α) :
    ((uniqueKeys l).map (fun a => l.count a)).sum = l.length := by
  have h1 : (uniqueKeys l).toFinset = l.toFinset := by
    ext a
    simp [List.mem_toFinset, mem_uniqueKeys]
  have h2 := List.sum_toFinset (fun a => l.count a) (nodup_uniqueKeys l)
  rw [h1, List.sum_toFinset_count_eq_length] at h2
  exact h2.symm

theorem sum_countTable {α : Type} [DecidableEq α] (l : List α) :
    ((countTable l).map (fun p => p.2)).sum = l.length := by
  have := sum_counts l
  simpa [countTable, List.map_map, Function.comp] using this

theorem mem_countTable {α : Type} [DecidableEq α] {l : List α} {a : α} (h : a ∈ l) :
    (a, l.count a) ∈ countTable l := by
  simp only [countTable, List.mem_map]
  exact ⟨a, (mem_uniqueKeys l a).mpr h, rfl⟩

theorem length_uniqueKeys_eq_card {α : Type} [DecidableEq α] (l : List α) :
    (uniqueKeys l).length = l.toFinset.card := by
  have h1 : (uniqueKeys l).toFinset = l.toFinset := by
    ext a
    simp [List.mem_toFinset, mem_uniqueKeys]
  rw [← h1, List.toFinset_card_of_nodup (nodup_uniqueKeys l)]

theorem length_adjacentPairs : ∀ l : List String, (adjacentPairs l).length = l.length - 1
  | [] => rfl
  | [_] => rfl
  | a :: b :: t => by
    have ih := length_adjacentPairs (b :: t)
    simp only [adjacentPairs, List.length_cons] at ih ⊢
    omega

theorem foldl_min_of_le {x : Int} {xs : List Int} (h : ∀ y ∈ xs, x ≤ y) :
    xs.foldl min x = x := by
  induction xs generalizing x with
  | nil => rfl
  | cons y ys ih =>
    have hxy : min x y = x := min_eq_left (h y (by simp))
    simp only [List.foldl_cons, hxy]
    exact ih (fun z hz => h z (by simp [hz]))

theorem foldl_max_sorted : ∀ (x : Int) (xs : List Int), (x :: xs).Pairwise (· ≤ ·) →
    ∀ z, (x :: xs).getLast? = some z → xs.foldl max x = z
  | _, [], _, _, hz => by simp_all
  | x, y :: ys, h, z, hz => by
    have hxy : max x y = y := max_eq_right ((List.pairwise_cons.mp h).1 y (by simp))
    simp only [List.foldl_cons, hxy]
    refine foldl_max_sorted y ys (List.pairwise_cons.mp h).2 z ?_
    rwa [List.getLast?_cons_cons] at hz

theorem map_getLast_opt {α β : Type} (f : α → β) :
    ∀ l : List α, (l.map f).getLast? = (l.getLast?).map f
  | [] => rfl
  | [_] => rfl
  | a :: b :: t => by
    have ih := map_getLast_opt f (b :: t)
    simpa [List.getLast?_cons_cons] using ih

/-! ## Order facts about the sort keys -/

theorem charListLt_trans : ∀ {x y z : List Char},
    charListLt x y = true → charListLt y z = true → charListLt x z = true
  | [], [], _, hxy, _ => by simp [charListLt] at hxy
  | [], _ :: _, [], _, hyz => by simp [charListLt] at hyz
  | [], _ :: _, _ :: _, _, _ => rfl
  | _ :: _, [], _, hxy, _ => by simp [charListLt] at hxy
  | _ :: _, _ :: _, [], _, hyz => by simp [charListLt] at hyz
  | a :: as, b :: bs, c :: cs, hxy, hyz => by
    simp only [charListLt, Bool.or_eq_true, Bool.and_eq_true, decide_eq_true_eq] at hxy hyz ⊢
    rcases hxy with hab | ⟨hab, htl⟩
    · rcases hyz with hbc | ⟨hbc, _⟩
      · exact Or.inl (lt_trans hab hbc)
      · exact Or.inl (hbc ▸ hab)
    · rcases hyz with hbc | ⟨hbc, htl2⟩
      · exact Or.inl (hab ▸ hbc)
      · exact Or.inr ⟨hab.trans hbc, charListLt_trans htl htl2⟩

theorem charListLt_connex : ∀ {x y : List Char},
    charListLt x y = false → charListLt y x = false → x = y
  | [], [], _, _ => rfl
  | [], _ :: _, hxy, _ => by simp [charListLt] at hxy
  | _ :: _, [], _, hyx => by simp [charListLt] at hyx
  | a :: as, b :: bs, hxy, hyx => by
    simp only [charListLt, Bool.or_eq_false_iff, Bool.and_eq_false_iff,
      decide_eq_false_iff_not] at hxy hyx
    have hab : a = b := le_antisymm (not_lt.mp hyx.1) (not_lt.mp hxy.1)
    subst hab
    rcases hxy.2 with h | h
    · exact absurd rfl h
    · rcases hyx.2 with h2 | h2
      · exact absurd rfl h2
      · rw [charListLt_connex h h2]

theorem strLt_asymm_eq {s t : String} (h1 : strLt s t = false) (h2 : strLt t s = false) :
    s = t :=
  String.ext (charListLt_connex h1 h2)

theorem keyLe_trans : ∀ (a b c : Event), keyLe a b → keyLe b c → keyLe a c := by
  intro a b c hab hbc
  simp only [keyLe, Bool.or_eq_true, Bool.and_eq_true, beq_iff_eq, decide_eq_true_eq] at hab hbc ⊢
  rcases hab with hab | ⟨hab, habt⟩
  · rcases hbc with hbc | ⟨hbc, _⟩
    · exact Or.inl (charListLt_trans hab hbc)
    · exact Or.inl (hbc ▸ hab)
  · rcases hbc with hbc | ⟨hbc, hbct⟩
    · exact Or.inl (hab ▸ hbc)
    · exact Or.inr ⟨hab.trans hbc, le_trans habt hbct⟩

theorem keyLe_total : ∀ (a b : Event), keyLe a b || keyLe b a := by
  intro a b
  simp only [keyLe, Bool.or_eq_true, Bool.and_eq_true, beq_iff_eq, decide_eq_true_eq]
  cases hab : strLt a.case_id b.case_id with
  | true => exact Or.inl (Or.inl rfl)
  | false =>
    cases hba : strLt b.case_id a.case_id with
    | true => exact Or.inr (Or.inl rfl)
    | false =>
      have heq : a.case_id = b.case_id := strLt_asymm_eq hab hba
      rcases Int.le_total a.timestamp b.timestamp with h | h
      · exact Or.inl (Or.inr ⟨heq, h⟩)
      · exact Or.inr (Or.inr ⟨heq.symm, h⟩)

theorem keyLe_of_same_key {a b : Event} (hc : a.case_id = b.case_id)
    (ht : a.timestamp = b.timestamp) : keyLe a b = true := by
  simp [keyLe, hc, ht]

/-- Stability of the stable sort in `prepare_event_log`: filtering the sorted
log by any predicate whose satisfying events are mutually `keyLe`-comparable
gives exactly the filter of the unsorted list (original relative order kept). -/
theorem filter_mergeSort_eq (l : List Event) (p : Event → Bool)
    (hp : ∀ a b : Event, p a = true → p b = true → keyLe a b = true) :
    (l.mergeSort keyLe).filter p = l.filter p := by
  have hperm : ((l.mergeSort keyLe).filter p).Perm (l.filter p) :=
    (List.mergeSort_perm l keyLe).filter p
  have hpw : (l.filter p).Pairwise (fun a b => keyLe a b = true) := by
    refine List.pairwise_of_forall_mem_list ?_
    intro a ha b hb
    exact hp a b (List.mem_filter.mp ha).2 (List.mem_filter.mp hb).2
  have hsub : List.Sublist (l.filter p) (l.mergeSort keyLe) :=
    List.sublist_mergeSort keyLe_trans keyLe_total hpw (List.filter_sublist l)
  have hsub2 : List.Sublist ((l.filter p).filter p) ((l.mergeSort keyLe).filter p) :=
    hsub.filter p
  have hff : (l.filter p).filter p = l.filter p := by
    rw [List.filter_filter]
    have : (fun a => p a && p a) = p := by
      funext a
      exact Bool.and_self _
    rw [this]
  rw [hff] at hsub2
  exact (hsub2.eq_of_length hperm.length_eq.symm).symm

/-! ## The two percentile formulations agree -/

theorem getD_of_lt {l : List ℚ} {n : Nat} (h : n < l.length) (d : ℚ) : l.getD n d = l[n] := by
  simp [List.getD_eq_getElem?_getD, List.getElem?_eq_getElem h]

theorem seriesQuantile_eq_specPercentile (xs : List ℚ) (p : ℚ) (h0 : 0 ≤ p) (h1 : p ≤ 1) :
    seriesQuantile xs p = specPercentile xs p := by
  unfold seriesQuantile specPercentile
  cases hs : ratSort xs with
  | nil => rfl
  | cons a t =>
    simp only []
    set s : List ℚ := a :: t with hs_def
    set pos : ℚ := p * ((s.length : ℚ) - 1) with hpos_def
    have hn1 : (0 : ℚ) ≤ (s.length : ℚ) - 1 := by
      have : (1 : ℚ) ≤ (s.length : ℚ) := by
        have : 1 ≤ s.length := by simp [hs_def]
        exact_mod_cast this
      linarith
    have hpos0 : 0 ≤ pos := mul_nonneg h0 hn1
    have hposle : pos ≤ (s.length : ℚ) - 1 := by
      calc pos = p * ((s.length : ℚ) - 1) := hpos_def
        _ ≤ 1 * ((s.length : ℚ) - 1) := by
            exact mul_le_mul_of_nonneg_right h1 hn1
        _ = (s.length : ℚ) - 1 := by ring
    have hfloor0 : (0 : ℤ) ≤ ⌊pos⌋ := Int.floor_nonneg.mpr hpos0
    have hcast : ((⌊pos⌋.toNat : Nat) : ℚ) = ((⌊pos⌋ : ℤ) : ℚ) := by
      exact_mod_cast Int.toNat_of_nonneg hfloor0
    by_cases hint : ((⌊pos⌋ : ℤ) : ℚ) = pos
    · have hceil : ⌈pos⌉ = ⌊pos⌋ := by
        conv_lhs => rw [← hint]
        exact Int.ceil_intCast _
      have hg : pos - ((⌊pos⌋.toNat : Nat) : ℚ) = 0 := by
        linarith [hint, hcast]
      have hg2 : pos - ((⌊pos⌋ : ℤ) : ℚ) = 0 := by linarith [hint]
      rw [hceil, hg, hg2]
      ring_nf
    · have hlt : ((⌊pos⌋ : ℤ) : ℚ) < pos := lt_of_le_of_ne (Int.floor_le pos) hint
      have hceil : ⌈pos⌉ = ⌊pos⌋ + 1 := by
        rw [Int.ceil_eq_iff]
        constructor
        · push_cast
          linarith
        · push_cast
          linarith [Int.lt_floor_add_one pos]
      have hposlt : pos < (s.length : ℚ) - 1 := by
        rcases lt_or_eq_of_le hposle with h | h
        · exact h
        · exfalso
          apply hint
          have hlen1 : (1 : ℕ) ≤ s.length := by simp [hs_def]
          have : pos = (((s.length - 1 : ℕ) : ℤ) : ℚ) := by
            rw [h]
            push_cast [hlen1]
            ring
          rw [this, Int.floor_intCast]
      have hfloorlt : ⌊pos⌋ < (s.length : ℤ) - 1 := by
        have := Int.floor_le_floor (le_of_lt hposlt)
        have hfl : ⌊(s.length : ℚ) - 1⌋ = (s.length : ℤ) - 1 := by
          rw [show ((s.length : ℚ) - 1) = (((s.length : ℤ) - 1 : ℤ) : ℚ) by push_cast; ring,
            Int.floor_intCast]
        have hne : ⌊pos⌋ ≠ (s.length : ℤ) - 1 := by
          intro hcontra
          apply hint
          have h2 : ((⌊pos⌋ : ℤ) : ℚ) = (s.length : ℚ) - 1 := by
            rw [hcontra]
            push_cast
            ring
          linarith [hposlt, hlt, h2]
        omega
      have hidx : ⌊pos⌋.toNat + 1 < s.length := by omega
      have hceilNat : ⌈pos⌉.toNat = ⌊pos⌋.toNat + 1 := by omega
      rw [hceilNat, getD_of_lt hidx, getD_of_lt hidx]
      simp only [Int.toNat_of_nonneg hfloor0, hcast]

theorem seriesMedian_eq_specPercentile (xs : List ℚ) :
    seriesMedian xs = specPercentile xs (1 / 2) := by
  unfold seriesMedian specPercentile
  cases hs : ratSort xs with
  | nil => rfl
  | cons a t =>
    simp only []
    set s : List ℚ := a :: t with hs_def
    have hlen : 1 ≤ s.length := by simp [hs_def]
    set pos : ℚ := (1 / 2) * ((s.length : ℚ) - 1) with hpos_def
    by_cases hodd : s.length % 2 = 1
    · obtain ⟨m, hm⟩ : ∃ m, s.length = 2 * m + 1 := ⟨s.length / 2, by omega⟩
      have hposm : pos = (m : ℚ) := by
        rw [hpos_def, hm]
        push_cast
        ring
      have hfl : ⌊pos⌋ = (m : ℤ) := by rw [hposm]; exact Int.floor_natCast m
      have hcl : ⌈pos⌉ = (m : ℤ) := by rw [hposm]; exact Int.ceil_natCast m
      have hg : pos - ((⌊pos⌋ : ℤ) : ℚ) = 0 := by
        rw [hfl, hposm]
        push_cast
        ring
      have hhalf : s.length / 2 = m := by omega
      rw [if_pos hodd, hfl, hcl, hhalf, Int.toNat_natCast]
      have hg2 : pos - (((m : ℕ) : ℤ) : ℚ) = 0 := by
        rw [hposm]
        push_cast
        ring
      rw [hg2]
      exact congrArg PVal.num (by ring)
    · obtain ⟨k, hk, hk1⟩ : ∃ k, s.length = 2 * k ∧ 1 ≤ k := ⟨s.length / 2, by omega, by omega⟩
      have hposk : pos = (k : ℚ) - 1 / 2 := by
        rw [hpos_def, hk]
        push_cast
        ring
      have hfl : ⌊pos⌋ = (k : ℤ) - 1 := by
        rw [Int.floor_eq_iff]
        constructor
        · rw [hposk]
          push_cast
          linarith [show (1 : ℚ) ≤ (k : ℚ) by exact_mod_cast hk1]
        · rw [hposk]
          push_cast
          linarith
      have hcl : ⌈pos⌉ = (k : ℤ) := by
        rw [Int.ceil_eq_iff]
        constructor
        · rw [hposk]
          push_cast
          linarith
        · rw [hposk]
          push_cast
          linarith
      have hg : pos - ((⌊pos⌋ : ℤ) : ℚ) = 1 / 2 := by
        rw [hfl, hposk]
        push_cast
        ring
      have hh1 : s.length / 2 - 1 = k - 1 := by omega
      have hh2 : s.length / 2 = k := by omega
      rw [if_neg hodd, hfl, hcl, hh1, hh2]
      have hfn2 : ((k : ℤ) - 1).toNat = k - 1 := by omega
      have hcn2 : (((k : ℕ) : ℤ)).toNat = k := by omega
      rw [hfn2, hcn2]
      have hg2 : pos - (((k : ℤ) - 1 : ℤ) : ℚ) = 1 / 2 := by
        rw [hposk]
        push_cast
        ring
      rw [hg2]
      exact congrArg PVal.num (by ring)

/-! ## Per-case throughput via first/last event -/

theorem charListLt_irrefl : ∀ (x : List Char), charListLt x x = false
  | [] => rfl
  | a :: as => by
    simp [charListLt, charListLt_irrefl as]

theorem caseGroup_pairwise_ts {df : List Event} (hdf : ValidLog df) (c : String) :
    (caseGroup df c).Pairwise (fun a b => a.timestamp ≤ b.timestamp) := by
  have h1 : (caseGroup df c).Pairwise (fun a b => keyLe a b = true) := hdf.filter _
  refine h1.imp_of_mem ?_
  intro a b ha hb hk
  have hac : a.case_id = c := by simpa using (List.mem_filter.mp ha).2
  have hbc : b.case_id = c := by simpa using (List.mem_filter.mp hb).2
  simp only [keyLe, Bool.or_eq_true, Bool.and_eq_true, beq_iff_eq, decide_eq_true_eq] at hk
  rcases hk with hk | ⟨_, hts⟩
  · exfalso
    rw [hac, hbc] at hk
    rw [strLt, charListLt_irrefl] at hk
    exact Bool.false_ne_true hk
  · exact hts

theorem tsMin_of_head {g : List Event} {e0 : Event}
    (hs : g.Pairwise (fun a b => a.timestamp ≤ b.timestamp))
    (h : g.head? = some e0) : tsMin (g.map (·.timestamp)) = e0.timestamp := by
  cases g with
  | nil => simp at h
  | cons x xs =>
    have hx : x = e0 := by simpa using h
    subst hx
    simp only [List.map_cons, tsMin]
    apply foldl_min_of_le
    intro y hy
    obtain ⟨e, he, rfl⟩ := List.mem_map.mp hy
    exact (List.pairwise_cons.mp hs).1 e he

theorem tsMax_of_getLast {g : List Event} {eL : Event}
    (hs : g.Pairwise (fun a b => a.timestamp ≤ b.timestamp))
    (h : g.getLast? = some eL) : tsMax (g.map (·.timestamp)) = eL.timestamp := by
  cases g with
  | nil => simp at h
  | cons x xs =>
    simp only [List.map_cons, tsMax]
    refine foldl_max_sorted x.timestamp (xs.map (·.timestamp)) ?_ eL.timestamp ?_
    · exact List.pairwise_map.mpr hs
    · rw [show (x.timestamp :: xs.map (·.timestamp)) = (x :: xs).map (·.timestamp) from rfl,
        map_getLast_opt, h]
      rfl

theorem caseThroughput_eq {df : List Event} (hdf : ValidLog df) {c : String}
    {e0 eL : Event} (h0 : (caseGroup df c).head? = some e0)
    (hL : (caseGroup df c).getLast? = some eL) :
    caseThroughput df c = ((eL.timestamp - e0.timestamp : Int) : ℚ) / 3600 := by
  have hpw := caseGroup_pairwise_ts hdf c
  unfold caseThroughput
  rw [tsMin_of_head hpw h0, tsMax_of_getLast hpw hL]

/-! ## Claim theorems -/

/-- C1 (counterexample): on an empty but schema-valid log, the throughput
statistics returned by `compute_kpis` are the float `nan` (the pandas
mean/median/min/max/quantile of an empty series), not absent as the claim
states, so the claim is false at the empty log. -/
theorem C1_counterexample :
    (compute_kpis ([] : List Event)).thr_mean = PVal.nan
    ∧ (compute_kpis ([] : List Event)).thr_median = PVal.nan
    ∧ (compute_kpis ([] : List Event)).thr_min = PVal.nan
    ∧ (compute_kpis ([] : List Event)).thr_max = PVal.nan
    ∧ (compute_kpis ([] : List Event)).thr_p95 = PVal.nan
    ∧ (compute_kpis ([] : List Event)).thr_mean ≠ PVal.null := by
  refine ⟨?_, ?_, ?_, ?_, ?_, ?_⟩ <;>
    simp [compute_kpis, caseIdsOf, uniqueKeys, throughputHours, seriesMean, seriesMedian,
      seriesMin, seriesMax, seriesQuantile, ratSort]

/-- C1 (amended): an empty but schema-valid log yields no error and a KPI
record with `cases = 0`, `events = 0`, `avg_events_per_case` absent (Python
`None`), an absent (NaT) time window, an empty frequency mapping — and all
five throughput statistics equal to the float `nan`, not absent. -/
theorem C1_empty_log :
    compute_kpis ([] : List Event) =
      { cases := 0, events := 0, unique_activities := 0,
        avg_events_per_case := PVal.null, first_event := none, last_event := none,
        thr_mean := PVal.nan, thr_median := PVal.nan, thr_min := PVal.nan,
        thr_max := PVal.nan, thr_p95 := PVal.nan, activity_frequency_top10 := [] } := by
  simp [compute_kpis, caseIdsOf, uniqueKeys, throughputHours, seriesMean, seriesMedian,
    seriesMin, seriesMax, seriesQuantile, ratSort, value_counts, countTable, tsMinOpt,
    tsMaxOpt]

/-- C2 (code bug): for the valid single-event log, DFG discovery yields an
empty edge mapping, and `dfg_to_edges_df` then fails with `KeyError:
'frequency'` (sorting a column-less empty DataFrame), contradicting the
claim that every downstream step is total. -/
theorem C2_empty_dfg_keyerror :
    ValidLog [(⟨"c1", "a", 0⟩ : Event)]
    ∧ (discover_dfg [(⟨"c1", "a", 0⟩ : Event)]).1 = []
    ∧ dfg_to_edges_df (discover_dfg [(⟨"c1", "a", 0⟩ : Event)]).1
        = Except.error "KeyError: frequency" := by
  refine ⟨by decide, by decide, rfl⟩

/-- C3 (counterexample): two equal-frequency edges come out of
`dfg_to_edges_df` in the DFG mapping's iteration order, not ordered by
source/target activity name, so the claimed tie-break does not exist. -/
theorem C3_counterexample :
    dfg_to_edges_df [(("b", "x"), 1), (("a", "y"), 1)]
      = Except.ok [⟨"b", "x", 1⟩, ⟨"a", "y", 1⟩]
    ∧ ¬ TieOrderedBySourceTarget [⟨"b", "x", 1⟩, ⟨"a", "y", 1⟩] := by
  constructor
  · have h1 : dfg_to_edges_df [(("b", "x"), 1), (("a", "y"), 1)]
        = Except.ok (([⟨"b", "x", 1⟩, ⟨"a", "y", 1⟩] : List Edge).mergeSort
            (fun a b => Nat.ble b.frequency a.frequency)) := rfl
    rw [h1, List.mergeSort_of_sorted (by decide)]
  · decide

/-- C3 (amended): for every non-empty DFG mapping the edge table assembly
succeeds and the rows are sorted by frequency descending; the rows are a
permutation of the mapping's rows, but equal-frequency rows keep the
mapping's iteration order — there is no source/target tie-break, so the row
order is not determined by the edge multiset alone. -/
theorem C3_edges_sorted (dfg : List ((String × String) × Nat)) (h : dfg ≠ []) :
    ∃ edges : List Edge,
      dfg_to_edges_df dfg = Except.ok edges
      ∧ edges.Pairwise (fun a b => b.frequency ≤ a.frequency)
      ∧ edges.Perm (dfg.map (fun p => Edge.mk p.1.1 p.1.2 p.2)) := by
  refine ⟨(dfg.map (fun p => Edge.mk p.1.1 p.1.2 p.2)).mergeSort
      (fun a b => Nat.ble b.frequency a.frequency), ?_, ?_, ?_⟩
  · unfold dfg_to_edges_df
    cases dfg with
    | nil => exact absurd rfl h
    | cons x xs => rfl
  · have htrans : ∀ a b c : Edge, (fun a b : Edge => Nat.ble b.frequency a.frequency) a b →
        (fun a b : Edge => Nat.ble b.frequency a.frequency) b c →
        (fun a b : Edge => Nat.ble b.frequency a.frequency) a c := by
      intro a b c hab hbc
      simp only [Nat.ble_eq] at hab hbc ⊢
      omega
    have htotal : ∀ a b : Edge, (fun a b : Edge => Nat.ble b.frequency a.frequency) a b
        || (fun a b : Edge => Nat.ble b.frequency a.frequency) b a := by
      intro a b
      simp only [Bool.or_eq_true, Nat.ble_eq]
      omega
    have hs := List.sorted_mergeSort htrans htotal (dfg.map (fun p => Edge.mk p.1.1 p.1.2 p.2))
    refine hs.imp ?_
    intro a b hab
    simpa [Nat.ble_eq] using hab
  · exact List.mergeSort_perm _ _

/-- C3 (witness): the amended claim at a concrete two-edge mapping. -/
theorem C3_edges_sorted_witness :
    ([(("a", "b"), 2), (("c", "d"), 5)] : List ((String × String) × Nat)) ≠ []
    ∧ ∃ edges : List Edge,
        dfg_to_edges_df [(("a", "b"), 2), (("c", "d"), 5)] = Except.ok edges
        ∧ edges.Pairwise (fun a b => b.frequency ≤ a.frequency)
        ∧ edges.Perm (([(("a", "b"), 2), (("c", "d"), 5)] :
            List ((String × String) × Nat)).map (fun p => Edge.mk p.1.1 p.1.2 p.2)) :=
  ⟨by decide, C3_edges_sorted _ (by decide)⟩

/-- C4 (counterexample): a log with 11 distinct activities, one event each.
The KPI record keeps only the first 10 entries of the frequency mapping
(`dict(list(activity_freq.items())[:10])`), so activity "k" is missing and
the retained counts sum to 10, not to the event count 11. -/
theorem C4_counterexample :
    (((compute_kpis [⟨"c", "a", 0⟩, ⟨"c", "b", 1⟩, ⟨"c", "c", 2⟩, ⟨"c", "d", 3⟩,
        ⟨"c", "e", 4⟩, ⟨"c", "f", 5⟩, ⟨"c", "g", 6⟩, ⟨"c", "h", 7⟩, ⟨"c", "i", 8⟩,
        ⟨"c", "j", 9⟩, ⟨"c", "k", 10⟩]).activity_frequency_top10.map (fun p => p.2)).sum = 10
      ∧ (compute_kpis [⟨"c", "a", 0⟩, ⟨"c", "b", 1⟩, ⟨"c", "c", 2⟩, ⟨"c", "d", 3⟩,
        ⟨"c", "e", 4⟩, ⟨"c", "f", 5⟩, ⟨"c", "g", 6⟩, ⟨"c", "h", 7⟩, ⟨"c", "i", 8⟩,
        ⟨"c", "j", 9⟩, ⟨"c", "k", 10⟩]).events = 11
      ∧ ¬ ("k" ∈ (compute_kpis [⟨"c", "a", 0⟩, ⟨"c", "b", 1⟩, ⟨"c", "c", 2⟩, ⟨"c", "d", 3⟩,
        ⟨"c", "e", 4⟩, ⟨"c", "f", 5⟩, ⟨"c", "g", 6⟩, ⟨"c", "h", 7⟩, ⟨"c", "i", 8⟩,
        ⟨"c", "j", 9⟩, ⟨"c", "k", 10⟩]).activity_frequency_top10.map (fun p => p.1))) := by
  have hvc : value_counts [⟨"c", "a", 0⟩, ⟨"c", "b", 1⟩, ⟨"c", "c", 2⟩, ⟨"c", "d", 3⟩,
        ⟨"c", "e", 4⟩, ⟨"c", "f", 5⟩, ⟨"c", "g", 6⟩, ⟨"c", "h", 7⟩, ⟨"c", "i", 8⟩,
        ⟨"c", "j", 9⟩, ⟨"c", "k", 10⟩]
      = countTable (([⟨"c", "a", 0⟩, ⟨"c", "b", 1⟩, ⟨"c", "c", 2⟩, ⟨"c", "d", 3⟩,
        ⟨"c", "e", 4⟩, ⟨"c", "f", 5⟩, ⟨"c", "g", 6⟩, ⟨"c", "h", 7⟩, ⟨"c", "i", 8⟩,
        ⟨"c", "j", 9⟩, ⟨"c", "k", 10⟩] : List Event).map (fun e => e.activity)) :=
    List.mergeSort_of_sorted (by decide)
  refine ⟨?_, by decide, ?_⟩
  · show (((value_counts _).take 10).map (fun p => p.2)).sum = 10
    rw [hvc]
    decide
  · show ¬ ("k" ∈ ((value_counts _).take 10).map (fun p => p.1))
    rw [hvc]
    decide

/-- C4 (amended): `cases` always equals the number of distinct case ids, and
whenever the log has at most 10 distinct activities (so the top-10 truncation
keeps everything) the frequency mapping covers every activity of the log and
its counts sum to the event count. -/
theorem C4_kpi_consistency (df : List Event)
    (h : (uniqueKeys (df.map (fun e => e.activity))).length ≤ 10) :
    (compute_kpis df).cases = (df.map (fun e => e.case_id)).toFinset.card
    ∧ ((compute_kpis df).activity_frequency_top10.map (fun p => p.2)).sum
        = (compute_kpis df).events
    ∧ ∀ e ∈ df, e.activity ∈ (compute_kpis df).activity_frequency_top10.map (fun p => p.1) := by
  have hperm : (value_counts df).Perm (countTable (df.map (fun e => e.activity))) :=
    List.mergeSort_perm _ _
  have hlen : (value_counts df).length ≤ 10 := by
    rw [hperm.length_eq]
    simpa [countTable, List.length_map] using h
  have htake : (value_counts df).take 10 = value_counts df := List.take_of_length_le hlen
  refine ⟨?_, ?_, ?_⟩
  · show (caseIdsOf df).length = _
    exact length_uniqueKeys_eq_card _
  · show (((value_counts df).take 10).map (fun p => p.2)).sum = df.length
    rw [htake]
    have h1 : ((value_counts df).map (fun p => p.2)).sum
        = ((countTable (df.map (fun e => e.activity))).map (fun p => p.2)).sum :=
      (hperm.map (fun p => p.2)).sum_eq
    rw [h1, sum_countTable, List.length_map]
  · intro e he
    show e.activity ∈ ((value_counts df).take 10).map (fun p => p.1)
    rw [htake]
    have h2 : e.activity ∈ df.map (fun e => e.activity) := List.mem_map_of_mem _ he
    have h3 := mem_countTable h2
    have h4 : (e.activity, (df.map (fun e => e.activity)).count e.activity) ∈ value_counts df :=
      hperm.mem_iff.mpr h3
    exact List.mem_map.mpr ⟨_, h4, rfl⟩

/-- C4 (witness): the amended claim at a concrete two-event log. -/
theorem C4_kpi_consistency_witness :
    (uniqueKeys (([⟨"A", "x", 0⟩, ⟨"A", "y", 1⟩] : List Event).map
        (fun e => e.activity))).length ≤ 10
    ∧ ((compute_kpis [⟨"A", "x", 0⟩, ⟨"A", "y", 1⟩]).cases
        = (([⟨"A", "x", 0⟩, ⟨"A", "y", 1⟩] : List Event).map (fun e => e.case_id)).toFinset.card
      ∧ ((compute_kpis [⟨"A", "x", 0⟩, ⟨"A", "y", 1⟩]).activity_frequency_top10.map
            (fun p => p.2)).sum
          = (compute_kpis [⟨"A", "x", 0⟩, ⟨"A", "y", 1⟩]).events
      ∧ ∀ e ∈ ([⟨"A", "x", 0⟩, ⟨"A", "y", 1⟩] : List Event),
          e.activity ∈ (compute_kpis [⟨"A", "x", 0⟩, ⟨"A", "y", 1⟩]).activity_frequency_top10.map
            (fun p => p.1)) :=
  ⟨by decide, C4_kpi_consistency _ (by decide)⟩

/-- The NaT count computed over the projected rows equals the count of rows
whose timestamp does not parse. -/
theorem badCount_proj (parse : String → Option Int) (rows : List RawRow) :
    ((rows.map projectRow).filter (fun t => (parse t.2.2).isNone)).length
      = (rows.filter (fun r => (parse r.timestamp).isNone)).length := by
  rw [List.filter_map, List.length_map]
  rfl

/-- When no row has a NaT timestamp, parsing drops nothing. -/
theorem length_filterMap_parseRow (parse : String → Option Int) :
    ∀ l : List (String × String × String),
      (l.filter (fun t => (parse t.2.2).isNone)).length = 0 →
      (l.filterMap (parseRow parse)).length = l.length
  | [], _ => rfl
  | t :: ts, h => by
    cases hv : parse t.2.2 with
    | none =>
      exfalso
      rw [List.filter_cons] at h
      simp [hv] at h
    | some v =>
      have ht : parseRow parse t = some ⟨t.1, t.2.1, v⟩ := by
        simp [parseRow, hv]
      have h2 : (ts.filter (fun t => (parse t.2.2).isNone)).length = 0 := by
        rw [List.filter_cons] at h
        simpa [hv] using h
      rw [List.filterMap_cons_some ht]
      simp [length_filterMap_parseRow parse ts h2]

/-- C5: `prepare_event_log` fails if and only if at least one timestamp is
unparseable; the error reports exactly the count of unparseable rows; and on
success the produced log is a permutation of all parsed rows — in particular
it has one event per input row, nothing silently dropped. -/
theorem C5_parse_error (parse : String → Option Int) (rows : List RawRow) :
    (prepare_event_log parse rows
        = Except.error ((rows.filter (fun r => (parse r.timestamp).isNone)).length)
      ↔ (rows.filter (fun r => (parse r.timestamp).isNone)).length ≠ 0)
    ∧ (∀ n, prepare_event_log parse rows = Except.error n
        → n = (rows.filter (fun r => (parse r.timestamp).isNone)).length)
    ∧ ((rows.filter (fun r => (parse r.timestamp).isNone)).length = 0
        → ∃ df, prepare_event_log parse rows = Except.ok df
            ∧ df.Perm (parsedEvents parse rows) ∧ df.length = rows.length) := by
  have hb := badCount_proj parse rows
  simp only [prepare_event_log, hb]
  by_cases h0 : (rows.filter (fun r => (parse r.timestamp).isNone)).length = 0
  · rw [if_pos h0]
    refine ⟨?_, ?_, ?_⟩
    · constructor
      · intro hcontra
        cases hcontra
      · intro hne
        exact absurd h0 hne
    · intro n hcontra
      cases hcontra
    · intro _
      refine ⟨(parsedEvents parse rows).mergeSort keyLe, rfl, List.mergeSort_perm _ _, ?_⟩
      have hL := length_filterMap_parseRow parse (rows.map projectRow) (by rw [hb]; exact h0)
      calc ((parsedEvents parse rows).mergeSort keyLe).length
          = (parsedEvents parse rows).length := by simp
        _ = (rows.map projectRow).length := hL
        _ = rows.length := by simp
  · rw [if_neg h0]
    refine ⟨⟨fun _ => h0, fun _ => rfl⟩, ?_, ?_⟩
    · intro n hn
      injection hn with h
      exact h.symm
    · intro hcontra
      exact absurd hcontra h0

/-- C5 (witness): one row whose timestamp does not parse gives
`ParseError` with count 1. -/
theorem C5_parse_error_witness :
    prepare_event_log (fun s => if s = "x" then none else some 0) [⟨"c", "a", "x", []⟩]
      = Except.error 1 :=
  (C5_parse_error (fun s => if s = "x" then none else some 0) [⟨"c", "a", "x", []⟩]).1.mpr
    (by decide)

/-- C6: in a valid (case-and-time sorted) log, every case's throughput equals
the timestamp of its last event minus the timestamp of its first event,
converted to hours; a single-event case has throughput 0. -/
theorem C6_case_throughput (df : List Event) (hdf : ValidLog df) :
    ∀ c ∈ caseIdsOf df, ∀ e0 eL : Event,
      (caseGroup df c).head? = some e0 → (caseGroup df c).getLast? = some eL →
      caseThroughput df c = ((eL.timestamp - e0.timestamp : Int) : ℚ) / 3600
      ∧ (caseGroup df c = [e0] → caseThroughput df c = 0) := by
  intro c _ e0 eL h0 hL
  constructor
  · exact caseThroughput_eq hdf h0 hL
  · intro hg
    have hL2 : (caseGroup df c).getLast? = some e0 := by rw [hg]; rfl
    rw [caseThroughput_eq hdf h0 hL2]
    simp

/-- C6 (witness): a two-event case spanning 7200 seconds has throughput
(7200 − 0)/3600 hours. -/
theorem C6_case_throughput_witness :
    ValidLog [(⟨"A", "x", 0⟩ : Event), ⟨"A", "y", 7200⟩]
    ∧ "A" ∈ caseIdsOf [(⟨"A", "x", 0⟩ : Event), ⟨"A", "y", 7200⟩]
    ∧ (caseGroup [(⟨"A", "x", 0⟩ : Event), ⟨"A", "y", 7200⟩] "A").head?
        = some ⟨"A", "x", 0⟩
    ∧ (caseGroup [(⟨"A", "x", 0⟩ : Event), ⟨"A", "y", 7200⟩] "A").getLast?
        = some ⟨"A", "y", 7200⟩
    ∧ (caseThroughput [(⟨"A", "x", 0⟩ : Event), ⟨"A", "y", 7200⟩] "A"
        = ((((⟨"A", "y", 7200⟩ : Event)).timestamp - ((⟨"A", "x", 0⟩ : Event)).timestamp : Int) : ℚ) / 3600
      ∧ (caseGroup [(⟨"A", "x", 0⟩ : Event), ⟨"A", "y", 7200⟩] "A" = [⟨"A", "x", 0⟩] →
          caseThroughput [(⟨"A", "x", 0⟩ : Event), ⟨"A", "y", 7200⟩] "A" = 0)) :=
  ⟨by decide, by decide, by decide, by decide,
    C6_case_throughput _ (by decide) "A" (by decide) _ _ (by decide) (by decide)⟩

/-- C7: for a log with at least one case, the reported median and p95 both
equal the spec's linear-interpolation percentile (position `p * (N - 1)` in
the sorted per-case throughput list, interpolating between the bracketing
order statistics) at p = 0.5 and p = 0.95 respectively. -/
theorem C7_percentile_method (df : List Event) (h : throughputHours df ≠ []) :
    (compute_kpis df).thr_median = specPercentile (throughputHours df) (1 / 2)
    ∧ (compute_kpis df).thr_p95 = specPercentile (throughputHours df) (95 / 100) := by
  have _hne := h
  constructor
  · exact seriesMedian_eq_specPercentile (throughputHours df)
  · exact seriesQuantile_eq_specPercentile (throughputHours df) (95 / 100)
      (by norm_num) (by norm_num)

/-- C7 (witness): the percentile agreement at a concrete one-case log. -/
theorem C7_percentile_method_witness :
    throughputHours [(⟨"A", "x", 0⟩ : Event), ⟨"A", "y", 7200⟩] ≠ []
    ∧ ((compute_kpis [(⟨"A", "x", 0⟩ : Event), ⟨"A", "y", 7200⟩]).thr_median
        = specPercentile (throughputHours [(⟨"A", "x", 0⟩ : Event), ⟨"A", "y", 7200⟩]) (1 / 2)
      ∧ (compute_kpis [(⟨"A", "x", 0⟩ : Event), ⟨"A", "y", 7200⟩]).thr_p95
        = specPercentile (throughputHours [(⟨"A", "x", 0⟩ : Event), ⟨"A", "y", 7200⟩])
            (95 / 100)) :=
  ⟨by decide, C7_percentile_method _ (by decide)⟩

/-- C8: the DFG edge frequencies sum to Σ over cases of (case length − 1),
and a single-event case contributes no directly-follows pair but one count to
the start-activity mapping and one to the end-activity mapping for its sole
activity. -/
theorem C8_edge_conservation (df : List Event) :
    (((discover_dfg df).1).map (fun p => p.2)).sum
      = ((caseIdsOf df).map (fun c => (caseGroup df c).length - 1)).sum
    ∧ ∀ c ∈ caseIdsOf df, ∀ e : Event, caseGroup df c = [e] →
        adjacentPairs (caseSeq df c) = []
        ∧ 1 ≤ (startActs df).count e.activity
        ∧ (e.activity, (startActs df).count e.activity) ∈ (discover_dfg df).2.1
        ∧ 1 ≤ (endActs df).count e.activity
        ∧ (e.activity, (endActs df).count e.activity) ∈ (discover_dfg df).2.2 := by
  constructor
  · show ((countTable (dfgPairs df)).map (fun p => p.2)).sum = _
    rw [sum_countTable]
    simp only [dfgPairs, List.length_flatten, List.map_map]
    refine congrArg List.sum (List.map_congr_left ?_)
    intro c _
    simp only [Function.comp_apply, length_adjacentPairs, caseSeq, List.length_map]
  · intro c hc e hg
    have hseq : caseSeq df c = [e.activity] := by
      simp only [caseSeq, hg]
      rfl
    have hstart : e.activity ∈ startActs df := by
      simp only [startActs]
      exact List.mem_filterMap.mpr ⟨c, hc, by rw [hseq]; rfl⟩
    have hend : e.activity ∈ endActs df := by
      simp only [endActs]
      exact List.mem_filterMap.mpr ⟨c, hc, by rw [hseq]; rfl⟩
    refine ⟨by rw [hseq]; rfl, List.count_pos_iff.mpr hstart, mem_countTable hstart,
      List.count_pos_iff.mpr hend, mem_countTable hend⟩

/-- C8 (witness): the single-event log. -/
theorem C8_edge_conservation_witness :
    "c1" ∈ caseIdsOf [(⟨"c1", "a", 0⟩ : Event)]
    ∧ caseGroup [(⟨"c1", "a", 0⟩ : Event)] "c1" = [⟨"c1", "a", 0⟩]
    ∧ (adjacentPairs (caseSeq [(⟨"c1", "a", 0⟩ : Event)] "c1") = []
      ∧ 1 ≤ (startActs [(⟨"c1", "a", 0⟩ : Event)]).count (Event.mk "c1" "a" 0).activity
      ∧ ((Event.mk "c1" "a" 0).activity,
          (startActs [(⟨"c1", "a", 0⟩ : Event)]).count (Event.mk "c1" "a" 0).activity)
          ∈ (discover_dfg [(⟨"c1", "a", 0⟩ : Event)]).2.1
      ∧ 1 ≤ (endActs [(⟨"c1", "a", 0⟩ : Event)]).count (Event.mk "c1" "a" 0).activity
      ∧ ((Event.mk "c1" "a" 0).activity,
          (endActs [(⟨"c1", "a", 0⟩ : Event)]).count (Event.mk "c1" "a" 0).activity)
          ∈ (discover_dfg [(⟨"c1", "a", 0⟩ : Event)]).2.2) :=
  ⟨by decide, by decide,
    (C8_edge_conservation [(⟨"c1", "a", 0⟩ : Event)]).2 "c1" (by decide)
      (Event.mk "c1" "a" 0) (by decide)⟩

/-- C9: a successfully prepared log is sorted so that, within each case,
timestamps ascend, and events with equal (case_id, timestamp) keys keep their
original input order (stable mergesort): filtering the prepared log by any
concrete key gives exactly the filter of the parsed rows in input order. -/
theorem C9_stable_sort (parse : String → Option Int) (rows : List RawRow) (df : List Event)
    (h : prepare_event_log parse rows = Except.ok df) :
    df.Pairwise (fun a b => a.case_id = b.case_id → a.timestamp ≤ b.timestamp)
    ∧ ∀ c : String, ∀ t : Int,
        df.filter (fun e => e.case_id == c && e.timestamp == t)
          = (parsedEvents parse rows).filter (fun e => e.case_id == c && e.timestamp == t) := by
  have hdf : df = (parsedEvents parse rows).mergeSort keyLe := by
    simp only [prepare_event_log] at h
    split_ifs at h with hbad
    · injection h with h2
      exact h2.symm
  subst hdf
  constructor
  · have hs := List.sorted_mergeSort keyLe_trans keyLe_total (parsedEvents parse rows)
    refine hs.imp ?_
    intro a b hk hceq
    simp only [keyLe, Bool.or_eq_true, Bool.and_eq_true, beq_iff_eq,
      decide_eq_true_eq] at hk
    rcases hk with hk | ⟨_, hts⟩
    · exfalso
      rw [hceq] at hk
      rw [strLt, charListLt_irrefl] at hk
      exact Bool.false_ne_true hk
    · exact hts
  · intro c t
    refine filter_mergeSort_eq _ _ ?_
    intro a b ha hb
    simp only [Bool.and_eq_true, beq_iff_eq] at ha hb
    exact keyLe_of_same_key (ha.1.trans hb.1.symm) (ha.2.trans hb.2.symm)

/-- C9 (witness): a concrete two-row input prepared successfully. -/
theorem C9_stable_sort_witness :
    prepare_event_log
        (fun s => if s = "t0" then some 0 else if s = "t1" then some 3600 else none)
        [⟨"A", "x", "t0", []⟩, ⟨"A", "y", "t1", []⟩]
      = Except.ok [(⟨"A", "x", 0⟩ : Event), ⟨"A", "y", 3600⟩]
    ∧ (List.Pairwise (fun a b : Event => a.case_id = b.case_id → a.timestamp ≤ b.timestamp)
        [(⟨"A", "x", 0⟩ : Event), ⟨"A", "y", 3600⟩]
      ∧ ∀ c : String, ∀ t : Int,
          (([(⟨"A", "x", 0⟩ : Event), ⟨"A", "y", 3600⟩]).filter
              (fun e => e.case_id == c && e.timestamp == t))
            = (parsedEvents
                (fun s => if s = "t0" then some 0 else if s = "t1" then some 3600 else none)
                [⟨"A", "x", "t0", []⟩, ⟨"A", "y", "t1", []⟩]).filter
                (fun e => e.case_id == c && e.timestamp == t)) := by
  have hpe : parsedEvents
      (fun s => if s = "t0" then some 0 else if s = "t1" then some 3600 else none)
      [⟨"A", "x", "t0", []⟩, ⟨"A", "y", "t1", []⟩]
      = [(⟨"A", "x", 0⟩ : Event), ⟨"A", "y", 3600⟩] := by decide
  have hprep : prepare_event_log
      (fun s => if s = "t0" then some 0 else if s = "t1" then some 3600 else none)
      [⟨"A", "x", "t0", []⟩, ⟨"A", "y", "t1", []⟩]
      = Except.ok [(⟨"A", "x", 0⟩ : Event), ⟨"A", "y", 3600⟩] := by
    have h1 : prepare_event_log
        (fun s => if s = "t0" then some 0 else if s = "t1" then some 3600 else none)
        [⟨"A", "x", "t0", []⟩, ⟨"A", "y", "t1", []⟩]
        = Except.ok ((parsedEvents
            (fun s => if s = "t0" then some 0 else if s = "t1" then some 3600 else none)
            [⟨"A", "x", "t0", []⟩, ⟨"A", "y", "t1", []⟩]).mergeSort keyLe) := rfl
    rw [h1, hpe, List.mergeSort_of_sorted (by decide)]
  exact ⟨hprep, C9_stable_sort _ _ _ hprep⟩

/-- C10: the pipeline reads only the three projected columns — two raw inputs
agreeing on (case_id, activity_name, timestamp) row by row produce identical
prepared logs and identical downstream KPI, DFG and edge-table results. -/
theorem C10_projection_only (parse : String → Option Int) (rows1 rows2 : List RawRow)
    (h : rows1.map projectRow = rows2.map projectRow) :
    prepare_event_log parse rows1 = prepare_event_log parse rows2
    ∧ Except.map compute_kpis (prepare_event_log parse rows1)
        = Except.map compute_kpis (prepare_event_log parse rows2)
    ∧ Except.map discover_dfg (prepare_event_log parse rows1)
        = Except.map discover_dfg (prepare_event_log parse rows2)
    ∧ Except.map (fun df => dfg_to_edges_df (discover_dfg df).1)
          (prepare_event_log parse rows1)
        = Except.map (fun df => dfg_to_edges_df (discover_dfg df).1)
          (prepare_event_log parse rows2) := by
  have hp : prepare_event_log parse rows1 = prepare_event_log parse rows2 := by
    simp only [prepare_event_log, parsedEvents, h]
  exact ⟨hp, by rw [hp], by rw [hp], by rw [hp]⟩

/-- C10 (witness): an extra column is discarded. -/
theorem C10_projection_only_witness :
    ([(⟨"c", "a", "t", [("other", "1")]⟩ : RawRow)].map projectRow
        = [(⟨"c", "a", "t", []⟩ : RawRow)].map projectRow)
    ∧ (prepare_event_log (fun _ => some 0) [⟨"c", "a", "t", [("other", "1")]⟩]
        = prepare_event_log (fun _ => some 0) [⟨"c", "a", "t", []⟩]
      ∧ Except.map compute_kpis
            (prepare_event_log (fun _ => some 0) [⟨"c", "a", "t", [("other", "1")]⟩])
          = Except.map compute_kpis
            (prepare_event_log (fun _ => some 0) [⟨"c", "a", "t", []⟩])
      ∧ Except.map discover_dfg
            (prepare_event_log (fun _ => some 0) [⟨"c", "a", "t", [("other", "1")]⟩])
          = Except.map discover_dfg
            (prepare_event_log (fun _ => some 0) [⟨"c", "a", "t", []⟩])
      ∧ Except.map (fun df => dfg_to_edges_df (discover_dfg df).1)
            (prepare_event_log (fun _ => some 0) [⟨"c", "a", "t", [("other", "1")]⟩])
          = Except.map (fun df => dfg_to_edges_df (discover_dfg df).1)
            (prepare_event_log (fun _ => some 0) [⟨"c", "a", "t", []⟩])) :=
  ⟨by decide, C10_projection_only _ _ _ (by decide)⟩
